import Mathlib

/-
  Verification development for the serde_deser_iter crate: a streaming
  reduction engine over serialized sequences.

  The embedding models the pull-based sequence cursor (serde's SeqAccess)
  as a list of successfully decodable items followed by what the cursor
  reports once those items are exhausted: either clean exhaustion
  (err = none, i.e. next_element returns Ok(None)) or a decode error
  (err = some e, i.e. next_element returns Err(e)).  A decode error at
  pull position k is modelled by a cursor whose item list has length k.

  Rust's core::ops::ControlFlow is modelled by the ControlFlow inductive
  below; core::convert::Infallible by Empty; Result<T, E> by Except ε T.
-/

namespace SerdeDeserIter

/-- Model of core::ops::ControlFlow: the two-variant step outcome. -/
inductive ControlFlow (B A : Type) where
  | Continue (a : A)
  | Break (b : B)
deriving DecidableEq, Repr

/-- Model of the pull-based sequence cursor (serde SeqAccess): the items it
will successfully decode, in order, and what it reports after them —
exhaustion (none) or a decode error (some e). -/
structure Cursor (Item ε : Type) where
  items : List Item
  err : Option ε
deriving DecidableEq, Repr

namespace top_level

/-- Model of the drain loop `while seq.next_element::<Item>()?.is_some() {}`
from Wrapper::visit_seq (src/top_level.rs) and Vis::visit_seq
(src/deep/mod.rs): pulls every remaining item, then reports exhaustion
or propagates the cursor's decode error. -/
def drain {Item ε : Type} : List Item → Option ε → Except ε Unit
  | [], none => Except.ok ()
  | [], some e => Except.error e
  | _ :: xs, errq => drain xs errq

/-- Model of Wrapper::visit_seq from src/top_level.rs: obtain each element
from the cursor, feed it to the step function f; on Continue keep the new
accumulator and loop, on Break drain the remaining elements and return the
Break payload; on exhaustion return Continue of the accumulator; a decode
error propagates immediately (the `?` operator). -/
def Wrapper.visit_seq {Acc Item B ε : Type}
    (f : Acc → Item → ControlFlow B Acc) :
    Acc → List Item → Option ε → Except ε (ControlFlow B Acc)
  | acc, [], none => Except.ok (ControlFlow.Continue acc)
  | _, [], some e => Except.error e
  | acc, x :: xs, errq =>
    match f acc x with
    | ControlFlow.Continue new_acc => Wrapper.visit_seq f new_acc xs errq
    | ControlFlow.Break clot_break =>
      match drain xs errq with
      | Except.ok _ => Except.ok (ControlFlow.Break clot_break)
      | Except.error e => Except.error e

/-- Model of fn lift_infallible from src/top_level.rs. -/
def lift_infallible {A : Type} (val : A) : ControlFlow Empty A :=
  ControlFlow.Continue val

/-- Model of DeserializerExt::try_fold: deserialize_seq hands the cursor to
the Wrapper visitor. -/
def try_fold {Acc Item B ε : Type} (init : Acc)
    (f : Acc → Item → ControlFlow B Acc) (c : Cursor Item ε) :
    Except ε (ControlFlow B Acc) :=
  Wrapper.visit_seq f init c.items c.err

/-- Model of DeserializerExt::fold: runs try_fold with the lifted infallible
step; the Break arm is the source's unreachable!() — its payload has the
empty type Infallible, so the arm cannot be entered (Empty.elim). -/
def fold {Acc Item ε : Type} (init : Acc) (f : Acc → Item → Acc)
    (c : Cursor Item ε) : Except ε Acc :=
  match try_fold init (fun acc item => lift_infallible (f acc item)) c with
  | Except.ok (ControlFlow.Break i) => i.elim
  | Except.ok (ControlFlow.Continue res) => Except.ok res
  | Except.error e => Except.error e

/-- Model of DeserializerExt::for_each: fold with unit accumulator, running
the side-effecting closure on each item. -/
def for_each {Item ε : Type} (f : Item → Unit) (c : Cursor Item ε) :
    Except ε Unit :=
  fold () (fun _ item => f item) c

/-- Model of DeserializerExt::find: try_fold with a step that breaks with
the item on the first predicate match, then pattern-matches the signal into
an Option. -/
def find {Item ε : Type} (f : Item → Bool) (c : Cursor Item ε) :
    Except ε (Option Item) := do
  let fold_res ← try_fold () (fun _ item =>
    if f item then ControlFlow.Break item else ControlFlow.Continue ()) c
  pure (match fold_res with
    | ControlFlow.Continue _ => none
    | ControlFlow.Break item => some item)

end top_level

namespace deep

open top_level (drain)

/-- Model of the deep::Aggregator trait (src/deep/mod.rs): a trait impl with
associated types Acc, Item, Break, Value and static functions init,
try_fold, finalize becomes a record of those functions. -/
structure Aggregator (Acc Item B Value : Type) where
  init : Acc
  try_fold : Acc → Item → ControlFlow B Acc
  finalize : ControlFlow B Acc → Value

/-- The fin-computing part of Vis::visit_seq from src/deep/mod.rs: the
labeled block that runs the step loop (draining on Break) and yields the
terminal ControlFlow signal fin. -/
def Vis.loop {Acc Item B ε : Type}
    (step : Acc → Item → ControlFlow B Acc) :
    Acc → List Item → Option ε → Except ε (ControlFlow B Acc)
  | acc, [], none => Except.ok (ControlFlow.Continue acc)
  | _, [], some e => Except.error e
  | acc, x :: xs, errq =>
    match step acc x with
    | ControlFlow.Continue new_acc => Vis.loop step new_acc xs errq
    | ControlFlow.Break clot_break =>
      match drain xs errq with
      | Except.ok _ => Except.ok (ControlFlow.Break clot_break)
      | Except.error e => Except.error e

/-- Model of Vis::visit_seq from src/deep/mod.rs: compute the terminal
signal fin with the loop, then return Ok(I::finalize(fin)). -/
def Vis.visit_seq {Acc Item B V ε : Type} (I : Aggregator Acc Item B V)
    (xs : List Item) (errq : Option ε) : Except ε V :=
  (Vis.loop I.try_fold I.init xs errq).map I.finalize

/-- Model of the Aggregator impl for Fold<I> (src/deep/fold.rs): Break is
Infallible (Empty); the step wraps the user fold function in Continue; the
finalize Break arm is the source's unreachable!(), impossible since its
payload type is empty. -/
def Fold {Acc Item : Type} (init : Acc) (f : Acc → Item → Acc) :
    Aggregator Acc Item Empty Acc where
  init := init
  try_fold := fun acc item => ControlFlow.Continue (f acc item)
  finalize := fun
    | ControlFlow.Continue acc => acc
    | ControlFlow.Break b => b.elim

/-- Model of the Aggregator impl for TryFold<I> (src/deep/try_fold.rs):
the step is the user function unchanged and finalize is the identity —
Value is the raw ControlFlow signal. -/
def TryFold {Acc Item B : Type} (init : Acc)
    (f : Acc → Item → ControlFlow B Acc) :
    Aggregator Acc Item B (ControlFlow B Acc) where
  init := init
  try_fold := f
  finalize := fun x => x

/-- Model of the Aggregator impl for ForEach<I> (src/deep/for_each.rs):
unit accumulator, Break is Infallible (Empty); the step runs the
side-effecting user function and continues with unit; the finalize Break
arm is the source's unreachable!(). -/
def ForEach {Item : Type} (f : Item → Unit) :
    Aggregator Unit Item Empty Unit where
  init := ()
  try_fold := fun _ item =>
    let _ := f item
    ControlFlow.Continue ()
  finalize := fun
    | ControlFlow.Continue acc => acc
    | ControlFlow.Break b => b.elim

/-- Model of the Aggregator impl for Find<I> (src/deep/find.rs): unit
accumulator, Break carries the found item; the step breaks with the item
when the predicate holds; finalize maps Continue to none and Break to
some. -/
def Find {Item : Type} (f : Item → Bool) :
    Aggregator Unit Item Item (Option Item) where
  init := ()
  try_fold := fun _ item =>
    if f item then ControlFlow.Break item else ControlFlow.Continue ()
  finalize := fun
    | ControlFlow.Continue _ => none
    | ControlFlow.Break item => some item

/-- Model of StreamSeqDeser (src/deep/mod.rs): after decoding it holds only
the aggregated value. -/
structure StreamSeqDeser (V : Type) where
  value : V
deriving DecidableEq, Repr

/-- Model of the Deserialize impl for StreamSeqDeser: run the Vis visitor
on the sequence and store the finalized value. -/
def StreamSeqDeser.deserialize {Acc Item B V ε : Type}
    (I : Aggregator Acc Item B V) (xs : List Item) (errq : Option ε) :
    Except ε (StreamSeqDeser V) :=
  (Vis.visit_seq I xs errq).map (fun fin => { value := fin })

/-- Model of StreamSeqDeser::into_inner. -/
def StreamSeqDeser.into_inner {V : Type} (s : StreamSeqDeser V) : V :=
  s.value

/-- Model of the Deref impl for StreamSeqDeser (references collapse to
values in the pure embedding). -/
def StreamSeqDeser.deref {V : Type} (s : StreamSeqDeser V) : V :=
  s.value

end deep

namespace top_level

/-- Instrumented drain: also counts the number of next_element pulls the
drain loop makes (each remaining item plus the final pull that reports
exhaustion or fails). -/
def drainCount {Item ε : Type} : List Item → Option ε → Except ε Unit × Nat
  | [], none => (Except.ok (), 1)
  | [], some e => (Except.error e, 1)
  | _ :: xs, errq =>
    ((drainCount xs errq).1, (drainCount xs errq).2 + 1)

/-- Instrumented Wrapper::visit_seq: same recursion, additionally returning
the list of elements passed to the step function (in call order) and the
total number of next_element pulls made on the cursor. -/
def visitSeqTraced {Acc Item B ε : Type}
    (f : Acc → Item → ControlFlow B Acc) :
    Acc → List Item → Option ε →
      Except ε (ControlFlow B Acc) × List Item × Nat
  | acc, [], none => (Except.ok (ControlFlow.Continue acc), [], 1)
  | _, [], some e => (Except.error e, [], 1)
  | acc, x :: xs, errq =>
    match f acc x with
    | ControlFlow.Continue new_acc =>
      ((visitSeqTraced f new_acc xs errq).1,
       x :: (visitSeqTraced f new_acc xs errq).2.1,
       (visitSeqTraced f new_acc xs errq).2.2 + 1)
    | ControlFlow.Break clot_break =>
      (match (drainCount xs errq).1 with
       | Except.ok _ => Except.ok (ControlFlow.Break clot_break)
       | Except.error e => Except.error e,
       [x], (drainCount xs errq).2 + 1)

/-- Reference fold of the step function over a plain list, stopping at the
first Break: the mathematical meaning of the engine absent cursor errors. -/
def foldCF {Acc Item B : Type} (f : Acc → Item → ControlFlow B Acc) :
    Acc → List Item → ControlFlow B Acc
  | acc, [] => ControlFlow.Continue acc
  | acc, x :: xs =>
    match f acc x with
    | ControlFlow.Continue a => foldCF f a xs
    | ControlFlow.Break b => ControlFlow.Break b

/-- Reference run of the step function over a plain list that also counts
how many times the step function is applied (stopping at the first
Break). -/
def runSteps {Acc Item B : Type} (f : Acc → Item → ControlFlow B Acc) :
    Acc → List Item → ControlFlow B Acc × Nat
  | acc, [] => (ControlFlow.Continue acc, 0)
  | acc, x :: xs =>
    match f acc x with
    | ControlFlow.Continue a =>
      ((runSteps f a xs).1, (runSteps f a xs).2 + 1)
    | ControlFlow.Break b => (ControlFlow.Break b, 1)

/-- Whether an engine outcome is a successful Break signal. -/
def isBreakSignal {Acc B ε : Type} :
    Except ε (ControlFlow B Acc) → Bool
  | Except.ok (ControlFlow.Break _) => true
  | _ => false

/-- One observable step of the engine, used to state the frame property:
between two elements being produced the engine either finishes (done) or
carries forward exactly the new accumulator and the unread part of the
cursor (more) — nothing else. -/
inductive StepOut (Acc Item B ε : Type) where
  | done (r : Except ε (ControlFlow B Acc))
  | more (acc : Acc) (rest : List Item) (errq : Option ε)

/-- The engine's single-element transition: consume one pull from the
cursor and either finish or continue with only the replaced accumulator
and the rest of the cursor. -/
def engineStep {Acc Item B ε : Type}
    (f : Acc → Item → ControlFlow B Acc) (acc : Acc) :
    List Item → Option ε → StepOut Acc Item B ε
  | [], none => StepOut.done (Except.ok (ControlFlow.Continue acc))
  | [], some e => StepOut.done (Except.error e)
  | x :: xs, errq =>
    match f acc x with
    | ControlFlow.Continue new_acc => StepOut.more new_acc xs errq
    | ControlFlow.Break clot_break =>
      StepOut.done
        (match drain xs errq with
         | Except.ok _ => Except.ok (ControlFlow.Break clot_break)
         | Except.error e => Except.error e)

end top_level

section Lemmas

open top_level

/-- Draining a cursor with no pending error succeeds. -/
theorem drain_none {Item ε : Type} (xs : List Item) :
    drain (ε := ε) xs none = Except.ok () := by
  induction xs with
  | nil => rfl
  | cons x xs ih => simpa [drain] using ih

/-- Draining a cursor whose tail holds a decode error surfaces that error. -/
theorem drain_some {Item ε : Type} (xs : List Item) (e : ε) :
    drain xs (some e) = Except.error e := by
  induction xs with
  | nil => rfl
  | cons x xs ih => simpa [drain] using ih

/-- The instrumented drain agrees with the drain on its outcome. -/
theorem drainCount_fst {Item ε : Type} (xs : List Item) (errq : Option ε) :
    (drainCount xs errq).1 = drain xs errq := by
  induction xs with
  | nil => cases errq <;> rfl
  | cons x xs ih => simpa [drainCount, drain] using ih

/-- Draining an error-free cursor pulls each remaining element plus the
final exhaustion report. -/
theorem drainCount_none {Item ε : Type} (xs : List Item) :
    drainCount (ε := ε) xs none = (Except.ok (), xs.length + 1) := by
  induction xs with
  | nil => rfl
  | cons x xs ih => simp [drainCount, ih]

/-- The deep visitor's step loop is the same function as the top-level
Wrapper visitor: the two sources duplicate one engine. -/
theorem loop_eq_visit_seq {Acc Item B ε : Type}
    (f : Acc → Item → ControlFlow B Acc) (acc : Acc) (xs : List Item)
    (errq : Option ε) :
    deep.Vis.loop f acc xs errq = Wrapper.visit_seq f acc xs errq := by
  induction xs generalizing acc with
  | nil => cases errq <;> rfl
  | cons x xs ih =>
    cases hfx : f acc x with
    | Continue a => simp [deep.Vis.loop, Wrapper.visit_seq, hfx, ih]
    | Break b => simp [deep.Vis.loop, Wrapper.visit_seq, hfx]

/-- With an error pending at the end of the cursor, the engine always
surfaces it — whether it is met in the step loop or in the drain. -/
theorem visit_seq_some {Acc Item B ε : Type}
    (f : Acc → Item → ControlFlow B Acc) (acc : Acc) (xs : List Item)
    (e : ε) :
    Wrapper.visit_seq f acc xs (some e) = Except.error e := by
  induction xs generalizing acc with
  | nil => rfl
  | cons x xs ih =>
    cases hfx : f acc x with
    | Continue a => simpa [Wrapper.visit_seq, hfx] using ih a
    | Break b => simp [Wrapper.visit_seq, hfx, drain_some]

/-- On an error-free cursor the engine computes exactly the break-aware
left fold of the step function over the items. -/
theorem visit_seq_none {Acc Item B ε : Type}
    (f : Acc → Item → ControlFlow B Acc) (acc : Acc) (xs : List Item) :
    Wrapper.visit_seq f acc xs (none : Option ε) =
      Except.ok (foldCF f acc xs) := by
  induction xs generalizing acc with
  | nil => rfl
  | cons x xs ih =>
    cases hfx : f acc x with
    | Continue a => simpa [Wrapper.visit_seq, foldCF, hfx] using ih a
    | Break b => simp [Wrapper.visit_seq, foldCF, hfx, drain_none]

/-- A step function that always continues folds to the plain left fold. -/
theorem foldCF_lift {Acc Item B : Type} (g : Acc → Item → Acc) (acc : Acc)
    (xs : List Item) :
    foldCF (B := B) (fun a i => ControlFlow.Continue (g a i)) acc xs =
      ControlFlow.Continue (xs.foldl g acc) := by
  induction xs generalizing acc with
  | nil => rfl
  | cons x xs ih => simp [foldCF, ih]

/-- With a step function that always continues, every item of an error-free
cursor is passed to the step function, in cursor order. -/
theorem trace_lift_none {Acc Item B ε : Type} (g : Acc → Item → Acc)
    (acc : Acc) (xs : List Item) :
    (visitSeqTraced (B := B) (fun a i => ControlFlow.Continue (g a i))
      acc xs (none : Option ε)).2.1 = xs := by
  induction xs generalizing acc with
  | nil => rfl
  | cons x xs ih => simp [visitSeqTraced, ih]

/-- The step function of the find specialization folds to the first
predicate match. -/
theorem foldCF_find {Item : Type} (p : Item → Bool) (xs : List Item) :
    foldCF (fun (_ : Unit) item =>
        if p item then ControlFlow.Break item else ControlFlow.Continue ())
      () xs =
      (match xs.find? p with
       | some i => ControlFlow.Break i
       | none => ControlFlow.Continue ()) := by
  induction xs with
  | nil => rfl
  | cons x xs ih =>
    cases hp : p x <;> simp [foldCF, List.find?, hp, ih]

/-- An engine outcome for a step function that always continues is never a
Break signal. -/
theorem break_free_lift {Acc Item B ε : Type} (g : Acc → Item → Acc)
    (acc : Acc) (xs : List Item) (errq : Option ε) :
    isBreakSignal (Wrapper.visit_seq (B := B)
      (fun a i => ControlFlow.Continue (g a i)) acc xs errq) = false := by
  induction xs generalizing acc with
  | nil => cases errq <;> rfl
  | cons x xs ih => simpa [Wrapper.visit_seq] using ih (g acc x)

/-- The counting run of the step function agrees with the break-aware
fold on the signal it produces. -/
theorem runSteps_fst {Acc Item B : Type}
    (f : Acc → Item → ControlFlow B Acc) (acc : Acc) (xs : List Item) :
    (runSteps f acc xs).1 = foldCF f acc xs := by
  induction xs generalizing acc with
  | nil => rfl
  | cons x xs ih =>
    cases hfx : f acc x <;> simp [runSteps, foldCF, hfx, ih]

/-- When the step function never breaks on a list, it is applied once per
element. -/
theorem runSteps_len_of_continue {Acc Item B : Type}
    (f : Acc → Item → ControlFlow B Acc) (acc : Acc) (xs : List Item)
    (a : Acc) (h : foldCF f acc xs = ControlFlow.Continue a) :
    (runSteps f acc xs).2 = xs.length := by
  induction xs generalizing acc with
  | nil => rfl
  | cons x xs ih =>
    cases hfx : f acc x with
    | Continue a2 =>
      rw [foldCF, hfx] at h
      simp [runSteps, hfx, ih a2 h]
    | Break b => rw [foldCF, hfx] at h; exact absurd h (by simp)

/-- A break outcome takes at least one application of the step function. -/
theorem runSteps_pos_of_break {Acc Item B : Type}
    (f : Acc → Item → ControlFlow B Acc) (acc : Acc) (xs : List Item)
    (b : B) (h : (runSteps f acc xs).1 = ControlFlow.Break b) :
    0 < (runSteps f acc xs).2 := by
  cases xs with
  | nil => simp [runSteps] at h
  | cons x xs => cases hfx : f acc x <;> simp [runSteps, hfx]

end Lemmas

section Claims

open top_level

/-- Claim C2: for every error-free cursor producing elements xs, Fold (the
top-level fold method and the deep Fold aggregator alike) returns the left
fold of the combine function over xs in cursor order starting from the
initial accumulator, and the step function is applied exactly once per
element, in the exact order the cursor produces them. -/
theorem claim_C2_fold_order {Acc Item ε : Type} (g : Acc → Item → Acc)
    (init : Acc) (xs : List Item) :
    fold (ε := ε) init g ⟨xs, none⟩ = Except.ok (xs.foldl g init)
    ∧ deep.Vis.visit_seq (deep.Fold init g) xs (none : Option ε) =
        Except.ok (xs.foldl g init)
    ∧ (visitSeqTraced (fun a i => lift_infallible (g a i)) init xs
        (none : Option ε)).2.1 = xs := by
  refine ⟨?_, ?_, ?_⟩
  · simp [fold, try_fold, lift_infallible, visit_seq_none, foldCF_lift]
  · simp [deep.Vis.visit_seq, loop_eq_visit_seq, deep.Fold, visit_seq_none,
      foldCF_lift, Except.map]
  · simp only [lift_infallible]
    exact trace_lift_none g init xs

/-- Claim C3: a decode error in the cursor (including one met while
draining after a Stop) makes every reduction — try_fold, fold, for_each,
find, and the embedded-value entry — return that error; the signal loop
itself already fails, so the finalizer is never applied and no terminal
result is produced. -/
theorem claim_C3_error_propagation {Acc Item B V ε : Type}
    (f : Acc → Item → ControlFlow B Acc) (init : Acc) (g : Acc → Item → Acc)
    (ff : Item → Unit) (p : Item → Bool) (I : deep.Aggregator Acc Item B V)
    (xs : List Item) (e : ε) :
    try_fold init f ⟨xs, some e⟩ = Except.error e
    ∧ fold init g ⟨xs, some e⟩ = Except.error e
    ∧ for_each ff ⟨xs, some e⟩ = Except.error e
    ∧ find p ⟨xs, some e⟩ = Except.error e
    ∧ deep.Vis.loop I.try_fold I.init xs (some e) = Except.error e
    ∧ deep.Vis.visit_seq I xs (some e) = Except.error e
    ∧ deep.StreamSeqDeser.deserialize I xs (some e) = Except.error e := by
  refine ⟨visit_seq_some f init xs e, ?_, ?_, ?_, ?_, ?_, ?_⟩
  · simp [fold, try_fold, visit_seq_some]
  · simp [for_each, fold, try_fold, visit_seq_some]
  · simp [find, try_fold, visit_seq_some, Bind.bind, Except.bind]
  · simp [loop_eq_visit_seq, visit_seq_some]
  · simp [deep.Vis.visit_seq, loop_eq_visit_seq, visit_seq_some, Except.map]
  · simp [deep.StreamSeqDeser.deserialize, deep.Vis.visit_seq,
      loop_eq_visit_seq, visit_seq_some, Except.map]

/-- Claim C4: on an error-free cursor, Find (the top-level find method and
the deep Find aggregator alike) returns the first element in cursor order
satisfying the predicate, moved out as-is, and the absent value none when
no element satisfies it. -/
theorem claim_C4_find_first_match {Item ε : Type} (p : Item → Bool)
    (xs : List Item) :
    find (ε := ε) p ⟨xs, none⟩ = Except.ok (xs.find? p)
    ∧ deep.Vis.visit_seq (deep.Find p) xs (none : Option ε) =
        Except.ok (xs.find? p) := by
  constructor
  · cases hf : xs.find? p <;>
      simp [find, try_fold, visit_seq_none, foldCF_find, hf, Bind.bind,
        Except.bind, Pure.pure, Except.pure]
  · cases hf : xs.find? p <;>
      simp [deep.Vis.visit_seq, loop_eq_visit_seq, deep.Find, visit_seq_none,
        foldCF_find, hf, Except.map]

/-- Claim C5: for the Fold and For-Each specializations the engine never
produces a Stop (Break) signal, on any cursor: their step functions always
continue, so the Break arms of their finalizers — the unreachable branches
in Fold::finalize, ForEach::finalize and the top-level fold, whose payload
type Infallible is moreover uninhabited — are never executed. -/
theorem claim_C5_stop_branch_unreachable {Acc Item B ε : Type}
    (g : Acc → Item → Acc) (ff : Item → Unit) (acc : Acc) (xs : List Item)
    (errq : Option ε) :
    isBreakSignal (Wrapper.visit_seq (B := B)
        (fun a i => ControlFlow.Continue (g a i)) acc xs errq) = false
    ∧ isBreakSignal (Wrapper.visit_seq
        (fun a i => lift_infallible (g a i)) acc xs errq) = false
    ∧ isBreakSignal
        (deep.Vis.loop (deep.Fold acc g).try_fold acc xs errq) = false
    ∧ isBreakSignal
        (deep.Vis.loop (deep.ForEach ff).try_fold () xs errq) = false := by
  refine ⟨break_free_lift g acc xs errq, ?_, ?_, ?_⟩
  · simpa [lift_infallible] using break_free_lift (B := Empty) g acc xs errq
  · simpa [loop_eq_visit_seq, deep.Fold] using
      break_free_lift (B := Empty) g acc xs errq
  · simpa [loop_eq_visit_seq, deep.ForEach] using
      break_free_lift (B := Empty) (fun (_ : Unit) (_ : Item) => ()) () xs errq

/-- Claim C6: fallible fold exposes the raw two-variant signal: on an
error-free cursor try_fold (and the deep TryFold aggregator, whose
finalizer is the identity) returns Ok of the break-aware fold of the step
function — Continue of the final accumulator exactly when every element
was consumed without a Break (the step ran once per element), and Break
with the payload passed through unchanged exactly when the step broke. -/
theorem claim_C6_try_fold_raw_signal {Acc Item B ε : Type} (init : Acc)
    (f : Acc → Item → ControlFlow B Acc) (xs : List Item) :
    try_fold (ε := ε) init f ⟨xs, none⟩ = Except.ok (foldCF f init xs)
    ∧ deep.Vis.visit_seq (deep.TryFold init f) xs (none : Option ε) =
        Except.ok (foldCF f init xs)
    ∧ (deep.TryFold init f).finalize = (fun x => x)
    ∧ (∀ a : Acc, foldCF f init xs = ControlFlow.Continue a ↔
        runSteps f init xs = (ControlFlow.Continue a, xs.length))
    ∧ (∀ b : B, foldCF f init xs = ControlFlow.Break b ↔
        (runSteps f init xs).1 = ControlFlow.Break b) := by
  refine ⟨visit_seq_none f init xs, ?_, rfl, ?_, ?_⟩
  · simp [deep.Vis.visit_seq, loop_eq_visit_seq, deep.TryFold,
      visit_seq_none, Except.map]
  · intro a
    constructor
    · intro h
      refine Prod.ext ?_ ?_
      · rw [runSteps_fst]; exact h
      · simpa using runSteps_len_of_continue f init xs a h
    · intro h
      rw [← runSteps_fst, h]
  · intro b
    rw [← runSteps_fst]

/-- Claim C7: on an empty error-free cursor, Fold returns the initial
accumulator unchanged, For-Each returns unit, Find returns none — in both
entry points — and the step function is never invoked. -/
theorem claim_C7_empty_sequence {Acc Item B ε : Type} (g : Acc → Item → Acc)
    (init : Acc) (ff : Item → Unit) (p : Item → Bool)
    (f : Acc → Item → ControlFlow B Acc) :
    fold (ε := ε) init g ⟨[], none⟩ = Except.ok init
    ∧ for_each (ε := ε) ff ⟨[], none⟩ = Except.ok ()
    ∧ find (ε := ε) p ⟨[], none⟩ = Except.ok none
    ∧ deep.Vis.visit_seq (deep.Fold init g) [] (none : Option ε) =
        Except.ok init
    ∧ deep.Vis.visit_seq (deep.ForEach ff) [] (none : Option ε) =
        Except.ok ()
    ∧ deep.Vis.visit_seq (deep.Find p) [] (none : Option ε) =
        Except.ok none
    ∧ (visitSeqTraced f init [] (none : Option ε)).2.1 = [] :=
  ⟨rfl, rfl, rfl, rfl, rfl, rfl, rfl⟩

/-- Claim C8: both entry points run the same reduction engine: on any
cursor, the embedded-value entry's visitor equals the top-level entry's
visitor run with the aggregator's initial value and step function, with
the aggregator's finalizer mapped over the outcome — identical
Continue/Break outcomes on success and the identical propagated error on
failure. -/
theorem claim_C8_engines_agree {Acc Item B V ε : Type}
    (I : deep.Aggregator Acc Item B V) (xs : List Item) (errq : Option ε) :
    deep.Vis.visit_seq I xs errq =
      (try_fold I.init I.try_fold ⟨xs, errq⟩).map I.finalize := by
  unfold deep.Vis.visit_seq try_fold
  rw [loop_eq_visit_seq]

/-- Claim C9: a successfully decoded StreamSeqDeser stores exactly the
terminal result produced by the aggregator's finalizer and nothing else,
and its three accessors — value, the Deref implementation, and
into_inner — all yield that same stored value. -/
theorem claim_C9_stream_seq_deser_stores_result {Acc Item B V ε : Type}
    (I : deep.Aggregator Acc Item B V) (xs : List Item) (errq : Option ε) :
    deep.StreamSeqDeser.deserialize I xs errq =
      (deep.Vis.visit_seq I xs errq).map (fun v => { value := v })
    ∧ (∀ v : V, deep.StreamSeqDeser.deserialize I xs errq =
        Except.ok { value := v } ↔
          deep.Vis.visit_seq I xs errq = Except.ok v)
    ∧ ∀ s : deep.StreamSeqDeser V,
        s.value = s.into_inner ∧ deep.StreamSeqDeser.deref s = s.into_inner := by
  refine ⟨rfl, ?_, fun s => ⟨rfl, rfl⟩⟩
  intro v
  cases hv : deep.Vis.visit_seq I xs errq <;>
    simp [deep.StreamSeqDeser.deserialize, hv, Except.map]

/-- Claim C10: the reduction never materializes the sequence: each engine
transition consumes one pull and carries forward only the replaced
accumulator and the not-yet-pulled remainder of the cursor (the more state
of engineStep) — no element consumed earlier is retained — and both
engines' results are invariant under this single-element step. -/
theorem claim_C10_no_buffering {Acc Item B ε : Type}
    (f : Acc → Item → ControlFlow B Acc) (acc : Acc) (xs : List Item)
    (errq : Option ε) :
    (match engineStep f acc xs errq with
     | StepOut.done r => Wrapper.visit_seq f acc xs errq = r
     | StepOut.more a ys e2 =>
         Wrapper.visit_seq f acc xs errq = Wrapper.visit_seq f a ys e2)
    ∧ (match engineStep f acc xs errq with
     | StepOut.done r => deep.Vis.loop f acc xs errq = r
     | StepOut.more a ys e2 =>
         deep.Vis.loop f acc xs errq = deep.Vis.loop f a ys e2) := by
  constructor <;>
  · cases xs with
    | nil =>
      cases errq <;>
        simp [engineStep, Wrapper.visit_seq, deep.Vis.loop]
    | cons x xs =>
      cases hfx : f acc x <;>
        simp [engineStep, Wrapper.visit_seq, deep.Vis.loop, hfx]

/-- Claim C1: when the step function returns Stop (Break) at zero-based
position k of an error-free cursor with n elements, the engine still pulls
every one of the remaining elements from the cursor and the final
exhaustion report (n + 1 pulls in total) before returning the Stop payload
outward, and the step function is applied exactly k + 1 times — on the
first k + 1 elements only, never after the Stop. -/
theorem claim_C1_stop_drains_and_halts_steps {Acc Item B ε : Type}
    (f : Acc → Item → ControlFlow B Acc) (init : Acc) (xs : List Item)
    (b : B) (k : Nat)
    (h : runSteps f init xs = (ControlFlow.Break b, k + 1)) :
    Wrapper.visit_seq f init xs (none : Option ε) =
      Except.ok (ControlFlow.Break b)
    ∧ deep.Vis.loop f init xs (none : Option ε) =
        Except.ok (ControlFlow.Break b)
    ∧ (visitSeqTraced f init xs (none : Option ε)).2.1 = xs.take (k + 1)
    ∧ (visitSeqTraced f init xs (none : Option ε)).2.2 = xs.length + 1
    ∧ k < xs.length := by
  induction xs generalizing init k with
  | nil => simp [runSteps] at h
  | cons x xs ih =>
    cases hfx : f init x with
    | Break b2 =>
      simp only [runSteps, hfx] at h
      simp only [Prod.mk.injEq, ControlFlow.Break.injEq] at h
      obtain ⟨hb, hk⟩ := h
      have hk0 : k = 0 := by omega
      subst hb
      subst hk0
      refine ⟨?_, ?_, ?_, ?_, ?_⟩
      · simp [Wrapper.visit_seq, hfx, drain_none]
      · simp [deep.Vis.loop, hfx, drain_none]
      · simp [visitSeqTraced, hfx]
      · simp [visitSeqTraced, hfx, drainCount_none]
      · simp
    | Continue a =>
      simp only [runSteps, hfx] at h
      simp only [Prod.mk.injEq] at h
      obtain ⟨h1, h2⟩ := h
      have hpos := runSteps_pos_of_break f a xs b h1
      obtain ⟨m, rfl⟩ : ∃ m, k = m + 1 := ⟨k - 1, by omega⟩
      have hrun : runSteps f a xs = (ControlFlow.Break b, m + 1) :=
        Prod.ext h1 (by omega)
      obtain ⟨ih1, ih2, ih3, ih4, ih5⟩ := ih a m hrun
      refine ⟨?_, ?_, ?_, ?_, ?_⟩
      · simpa [Wrapper.visit_seq, hfx] using ih1
      · simpa [deep.Vis.loop, hfx] using ih2
      · simp [visitSeqTraced, hfx, ih3, List.take_succ_cons]
      · simp [visitSeqTraced, hfx, ih4]
      · simp only [List.length_cons]
        omega

/-- Witness for claim C1: a concrete run in which the step function breaks
on the third element (k = 2) of a four-element sequence; the engine makes
five pulls, feeds exactly three elements to the step function, and returns
the Stop payload. -/
theorem claim_C1_witness :
    runSteps (fun (a i : Nat) =>
        if i = 2 then ControlFlow.Break a else ControlFlow.Continue (a + 1))
      0 [10, 20, 2, 30] = (ControlFlow.Break 2, 2 + 1)
    ∧ (Wrapper.visit_seq (fun (a i : Nat) =>
          if i = 2 then ControlFlow.Break a else ControlFlow.Continue (a + 1))
        0 [10, 20, 2, 30] (none : Option Unit) =
          Except.ok (ControlFlow.Break 2)
      ∧ deep.Vis.loop (fun (a i : Nat) =>
          if i = 2 then ControlFlow.Break a else ControlFlow.Continue (a + 1))
        0 [10, 20, 2, 30] (none : Option Unit) =
          Except.ok (ControlFlow.Break 2)
      ∧ (visitSeqTraced (fun (a i : Nat) =>
          if i = 2 then ControlFlow.Break a else ControlFlow.Continue (a + 1))
        0 [10, 20, 2, 30] (none : Option Unit)).2.1 = [10, 20, 2, 30].take (2 + 1)
      ∧ (visitSeqTraced (fun (a i : Nat) =>
          if i = 2 then ControlFlow.Break a else ControlFlow.Continue (a + 1))
        0 [10, 20, 2, 30] (none : Option Unit)).2.2 = [10, 20, 2, 30].length + 1
      ∧ 2 < [10, 20, 2, 30].length) :=
  ⟨by rfl, claim_C1_stop_drains_and_halts_steps _ 0 _ 2 2 (by rfl)⟩

end Claims

end SerdeDeserIter
